import Mathlib

/-!
Verification of the `pointfree-docs` CLI core: the SQLite/FTS5-backed document
index (`src/unnamed/part_005`, the most complete revision of `lib/index.ts`),
the markdown text normalizer (`extractTitle` / `cleanMarkdown` in
`src/lib/markdown.ts`), the preview truncation logic (`truncateContent` in
`src/commands/get.ts`) and the episode-name formatter (`formatEpisodeName`).

Modelling conventions:
* JavaScript strings that are processed character by character are modelled as
  `List Char`; database-level values stay `String`.  Only the ASCII fragment of
  JS character classes (`\s`, `\w`, `\d`, case conversion) is modelled, which
  covers all concrete inputs used in this development.
* Regular-expression semantics (leftmost match, greedy/lazy backtracking) are
  compiled by hand into deterministic scanners; each scanner's comment derives
  why the backtracking collapses to the deterministic form.
* The SQLite database is an explicit state: the `docs` table is a list of rows
  in rowid order, the external-content FTS5 shadow table `docs_fts` is a list
  of index entries.  The built-in `bm25` and `snippet` SQL functions are opaque
  parameters, and the `try`/`catch` blocks around prepared statements become
  explicit `Outcome` parameters (`ok`/`fail`).
* Characters with special meaning to Lean are spelled via `Char.ofNat`.
-/

namespace PfDocs

/-- Newline character `\n` (code 10). -/
def nlC : Char := Char.ofNat 10

/-- Double-quote character (code 34). -/
def dqC : Char := Char.ofNat 34

/-- Single-quote character (code 39). -/
def sqC : Char := Char.ofNat 39

/-- Backtick character (code 96). -/
def btC : Char := Char.ofNat 96

/-- Opening curly brace character (code 123). -/
def obC : Char := Char.ofNat 123

/-- Closing curly brace character (code 125). -/
def cbC : Char := Char.ofNat 125

/-- Carriage-return character `\r` (code 13). -/
def crC : Char := Char.ofNat 13

/-- JS `\s` restricted to ASCII: space, tab, newline, vertical tab, form feed,
carriage return. -/
def isWsC (c : Char) : Bool :=
  c = ' ' || c.toNat = 9 || c.toNat = 10 || c.toNat = 11 || c.toNat = 12 || c.toNat = 13

/-- JS line terminators restricted to ASCII: `\n` and `\r`.  These are the
characters `.` refuses to match, and the characters around which the `m` flag
makes `^` and `$` match. -/
def isTermC (c : Char) : Bool := c == nlC || c == crC

/-- JS `\w` restricted to ASCII: letters, digits and underscore. -/
def isWordC (c : Char) : Bool :=
  c.isAlpha || c.isDigit || c = '_'

/-- JS `\d`: decimal digits. -/
def isDigitC (c : Char) : Bool := c.isDigit

/-! ## `truncateContent` (src/commands/get.ts lines 22–35)

```ts
function truncateContent(content, maxLines) {
  const lines = content.split("\n");
  const totalLines = lines.length;
  if (lines.length <= maxLines) {
    return { content, truncated: false, totalLines };
  }
  return { content: lines.slice(0, maxLines).join("\n"), truncated: true, totalLines };
}
```
`content.split("\n")` on a single-character separator is `List.splitOn nlC`,
and `join("\n")` is `[nlC].intercalate`. -/

structure TruncResult where
  content : List Char
  truncated : Bool
  totalLines : Nat
deriving Repr, DecidableEq

def truncateContent (content : List Char) (maxLines : Nat) : TruncResult :=
  let lines := content.splitOn nlC
  let totalLines := lines.length
  if lines.length ≤ maxLines then
    ⟨content, false, totalLines⟩
  else
    ⟨[nlC].intercalate (lines.take maxLines), true, totalLines⟩

/-! ## `formatEpisodeName` (src/unnamed/part_005 lines 263–274)

```ts
function formatEpisodeName(dirName) {
  const match = dirName.match(/^(\d+)-(.+)$/);
  if (!match) return dirName;
  const num = parseInt(match[1], 10);
  const name = match[2].split("-").map((w) => w.charAt(0).toUpperCase() + w.slice(1)).join(" ");
  return `Ep${num}: ${name}`;
}
```
The regex has neither the `m` nor the `s` flag, so `^`/`$` anchor to the whole
string and `.` excludes newlines.  Backtracking analysis: `(\d+)` greedily takes
the maximal digit prefix; shortening it leaves a digit where `-` is required,
so only the maximal prefix can succeed.  `(.+)$` then requires the remainder to
be nonempty and newline-free. -/

/-- Match of `/^(\d+)-(.+)$/`: returns the two capture groups. -/
def epMatch (dirName : List Char) : Option (List Char × List Char) :=
  let ds := dirName.takeWhile isDigitC
  let rest := dirName.dropWhile isDigitC
  match rest with
  | [] => none
  | c :: cs =>
    if ds ≠ [] ∧ c = '-' ∧ cs ≠ [] ∧ cs.all (fun x => x != nlC) then
      some (ds, cs)
    else none

/-- `parseInt(s, 10)` on an all-digit string: its numeric value. -/
def parseDigits (ds : List Char) : Nat :=
  ds.foldl (fun acc c => 10 * acc + (c.toNat - 48)) 0

/-- `w.charAt(0).toUpperCase() + w.slice(1)` (ASCII case conversion). -/
def capitalizeWord (w : List Char) : List Char :=
  match w with
  | [] => []
  | c :: rest => c.toUpper :: rest

def formatEpisodeName (dirName : List Char) : List Char :=
  match epMatch dirName with
  | none => dirName
  | some (ds, name) =>
    'E' :: 'p' :: (Nat.repr (parseDigits ds)).toList ++
      ':' :: ' ' :: [' '].intercalate ((name.splitOn '-').map capitalizeWord)

/-! ## `extractTitle` (src/lib/markdown.ts lines 394–414)

```ts
export function extractTitle(content) {
  const doccTitleMatch = content.match(/^#\s+``([^`]+)``/m);
  if (doccTitleMatch) return doccTitleMatch[1];
  const h1Match = content.match(/^#\s+(.+)$/m);
  if (h1Match) return h1Match[1].trim();
  const yamlMatch = content.match(YAML_RE);   // YAML_RE = ^---\s*\n.*?title:\s*(.+?)\n.*?--- with flag s
  if (yamlMatch) return yamlMatch[1].trim().replace(/^["']|["']$/g, "");
  return null;
}
```
With the `m` flag, `^` matches at offset 0 and after every line terminator
(`\n` or `\r`); `String.match` returns the leftmost match, so the scan tries
each line start from left to right (`scanLineStarts`). -/

/-- Try an anchored matcher at offset 0 and after every line terminator,
leftmost first.  The matchers used here all start with a non-empty literal, so
the end-of-string position can never match and is not tried. -/
def scanLSAux (f : List Char → Option (List Char)) : Bool → List Char → Option (List Char)
  | _, [] => none
  | atLS, c :: cs =>
    match (if atLS then f (c :: cs) else none) with
    | some r => some r
    | none => scanLSAux f (isTermC c) cs

def scanLineStarts (f : List Char → Option (List Char)) (l : List Char) : Option (List Char) :=
  scanLSAux f true l

/-- Anchored attempt of `#\s+``([^`]+)``/`.  Backtracking analysis: `\s+` is
greedy and the next required character (a backtick) is not whitespace, so only
the maximal whitespace run can succeed; `[^`]+` is greedy and the next required
character is a backtick, so it captures exactly up to the first backtick, which
must be followed by a second one. -/
def tryDocc (l : List Char) : Option (List Char) :=
  match l with
  | [] => none
  | c :: cs =>
    if c = '#' then
      let ws := cs.takeWhile isWsC
      let r1 := cs.dropWhile isWsC
      if ws = [] then none
      else
        match r1 with
        | b1 :: b2 :: r2 =>
          if b1 = btC ∧ b2 = btC then
            let cap := r2.takeWhile (fun x => x != btC)
            let r3 := r2.dropWhile (fun x => x != btC)
            match r3 with
            | e1 :: e2 :: _ =>
              if cap ≠ [] ∧ e1 = btC ∧ e2 = btC then some cap else none
            | _ => none
          else none
        | _ => none
    else none

/-- Anchored attempt of `#\s+(.+)$` (with `m`, so `$` matches at end of input
and before every line terminator; without `s`, so `.` excludes `\n` and `\r`,
while `\s+` may cross them).  Backtracking analysis: the greedy `(.+)` stops
exactly before the first line terminator after its start (or at end of input),
and at that stop `$` always holds, so at a split point `k` of `\s+` the match
succeeds iff the character at `k` exists and is not a terminator.  `\s+`
greedily takes the maximal whitespace run `ws` first: if any character
follows the run it is non-whitespace, hence no terminator, and the capture
runs from it to the end of its line.  If the string ends with the run, the
engine backs `\s+` off one character at a time, so the largest `k ≥ 1` with a
non-terminator `ws[k]` wins; the capture is exactly that single character,
because the following character (if any) must be a terminator — otherwise the
larger split `k+1` would already have matched. -/
def tryH1 (l : List Char) : Option (List Char) :=
  match l with
  | [] => none
  | c :: cs =>
    if c = '#' then
      let ws := cs.takeWhile isWsC
      let r1 := cs.dropWhile isWsC
      if ws = [] then none
      else
        match r1 with
        | [] =>
          match (ws.drop 1).reverse.find? (fun x => !isTermC x) with
          | some w => some [w]
          | none => none
        | _ :: _ => some (r1.takeWhile (fun x => !isTermC x))
    else none

/-- Does `needle` occur as a contiguous subsequence of the list? -/
def containsSeq (needle : List Char) : List Char → Bool
  | [] => needle.isEmpty
  | c :: cs => needle.isPrefixOf (c :: cs) || containsSeq needle cs

def tripleDash : List Char := ['-', '-', '-']

def titleKey : List Char := ['t', 'i', 't', 'l', 'e', ':']

/-- Backtracking for `(.+?)\n.*?---` at a fixed start (`s` flag: `.` matches
newlines).  The lazy capture grows one character at a time; whenever the next
character is a newline and the capture is nonempty, the trailing `.*?---`
succeeds iff `---` occurs somewhere after that newline.  `acc` holds the
reversed capture accumulated so far. -/
def capScan : List Char → List Char → Option (List Char)
  | _, [] => none
  | acc, c :: cs =>
    if c = nlC ∧ acc ≠ [] ∧ containsSeq tripleDash cs then some acc.reverse
    else capScan (c :: acc) cs

/-- Backtracking for `\s*(.+?)\n.*?---` after `title:`: the greedy `\s*` first
takes `k` = the whole whitespace run, then backs off one character at a time;
for each `k` the lazy part is tried by `capScan`. -/
def yamlTryK (t : List Char) : Nat → Option (List Char)
  | 0 => capScan [] t
  | k + 1 =>
    match capScan [] (t.drop (k + 1)) with
    | some cap => some cap
    | none => yamlTryK t k

def yamlAfterTitle (t : List Char) : Option (List Char) :=
  yamlTryK t (t.takeWhile isWsC).length

/-- Backtracking for `.*?title:` (`s` flag): occurrences of `title:` are tried
leftmost first, moving on to the next occurrence when the rest of the pattern
fails. -/
def yamlScanTitle : List Char → Option (List Char)
  | [] => none
  | c :: cs =>
    match (if titleKey.isPrefixOf (c :: cs) then yamlAfterTitle ((c :: cs).drop 6) else none) with
    | some cap => some cap
    | none => yamlScanTitle cs

/-- `/^---\s*\n/` at offset 0 (no `m` flag, so only there): after the literal
`---`, the greedy `\s*` must stop on a newline; since all backed-over
characters are whitespace, the candidate stops are exactly the newlines inside
the whitespace run, latest first.  Which newline is chosen cannot affect the
rest of the pattern (`title:` starts with a non-whitespace character, so no
occurrence lies between two newlines of the run), so the latest one is taken.
Returns the suffix after that newline, or `none` if the run has no newline. -/
def lastNlSplit (l : List Char) : Option (List Char) :=
  let w := l.takeWhile isWsC
  let rest := l.dropWhile isWsC
  if w.any (fun x => x == nlC) then
    some ((w.reverse.takeWhile (fun x => x != nlC)).reverse ++ rest)
  else none

/-- Match of `^---\s*\n.*?title:\s*(.+?)\n.*?---` (flag `s`), returning
capture 1. -/
def yamlTitleMatch (l : List Char) : Option (List Char) :=
  match l with
  | a :: b :: c :: rest =>
    if a = '-' ∧ b = '-' ∧ c = '-' then
      match lastNlSplit rest with
      | some rest2 => yamlScanTitle rest2
      | none => none
    else none
  | _ => none

def doccTitleMatch (l : List Char) : Option (List Char) :=
  scanLineStarts tryDocc l

def h1Match (l : List Char) : Option (List Char) :=
  scanLineStarts tryH1 l

/-- JS `String.prototype.trim` (ASCII whitespace). -/
def jsTrim (l : List Char) : List Char :=
  ((l.dropWhile isWsC).reverse.dropWhile isWsC).reverse

/-- `.replace(/^["']|["']$/g, "")`: removes one leading and one trailing quote
character (double or single). -/
def stripQuoteChars (l : List Char) : List Char :=
  let l1 :=
    match l with
    | c :: cs => if c = dqC ∨ c = sqC then cs else l
    | [] => []
  match l1.getLast? with
  | some c => if c = dqC ∨ c = sqC then l1.dropLast else l1
  | none => l1

def extractTitle (content : List Char) : Option (List Char) :=
  match doccTitleMatch content with
  | some s => some s
  | none =>
    match h1Match content with
    | some t => some (jsTrim t)
    | none =>
      match yamlTitleMatch content with
      | some y => some (stripQuoteChars (jsTrim y))
      | none => none

/-- Node's `basename(file, ".md")`: the part after the last `/`, with a
trailing `.md` stripped unless the basename is exactly `.md`. -/
def basenameNoMd (file : List Char) : List Char :=
  let base := (file.reverse.takeWhile (fun c => c != '/')).reverse
  if ['.', 'm', 'd'].isSuffixOf base ∧ base ≠ ['.', 'm', 'd'] then
    base.take (base.length - 3)
  else base

/-- `extractTitle(content) || basename(file, ".md")` from `indexLibrary`
(src/unnamed/part_005 line 133): JS `||` also rejects the empty string. -/
def titleFor (content file : List Char) : List Char :=
  match extractTitle content with
  | some t => if t = [] then basenameNoMd file else t
  | none => basenameNoMd file

/-! ## `cleanMarkdown` (src/lib/markdown.ts lines 419–438)

```ts
export function cleanMarkdown(content) {
  let cleaned = content;
  cleaned = cleaned.replace(DIRECTIVE_RE, "");        // @\w+\s*\{[^}]*\}     , flag g
  cleaned = cleaned.replace(SYMBOL_RE, "$1");         // ``([^`]+)``          , flag g
  cleaned = cleaned.replace(DOCLINK_RE, "[$1]");      // <doc:([^>]+)>        , flag g
  cleaned = cleaned.replace(LAYOUT_RE, "");           // @(Row|Column|Image|Video|Links|TabNavigator|Tab)\s*(\{[^}]*\})?  , flag g
  cleaned = cleaned.replace(/\n{3,}/g, "\n\n");
  return cleaned.trim();
}
```
A global replace scans left to right: at each position it tries the anchored
pattern; on a match it emits the replacement and resumes after the match
(replacements are not rescanned), otherwise it emits the character and moves
one position on.  `replaceAllF` implements this with a fuel argument equal to
the input length: every successful match of the patterns used here consumes at
least one character, so at most `l.length` steps occur before the list is
empty, and the fuel never runs out. -/

/-- One global-replace scan; a matcher returns `(emitted output, rest after
the match)`. -/
def replaceAllF (try1 : List Char → Option (List Char × List Char)) :
    Nat → List Char → List Char
  | 0, l => l
  | _ + 1, [] => []
  | fuel + 1, c :: cs =>
    match try1 (c :: cs) with
    | some (out, rest) => out ++ replaceAllF try1 fuel rest
    | none => c :: replaceAllF try1 fuel cs

def replaceAll (try1 : List Char → Option (List Char × List Char))
    (l : List Char) : List Char :=
  replaceAllF try1 l.length l

/-- Anchored `@\w+\s*\{[^}]*\}` (replacement `""`).  `\w+` and `\s*` are greedy
runs whose follow-sets (whitespace resp. `{`) are disjoint from them, so they
are deterministic; `[^}]*` captures up to the first `}`, which must be
present. -/
def tryDirective (l : List Char) : Option (List Char × List Char) :=
  match l with
  | [] => none
  | c :: cs =>
    if c = '@' then
      let w := cs.takeWhile isWordC
      let r1 := cs.dropWhile isWordC
      if w = [] then none
      else
        match r1.dropWhile isWsC with
        | [] => none
        | b :: r3 =>
          if b = obC then
            match r3.dropWhile (fun x => x != cbC) with
            | e :: rest => if e = cbC then some ([], rest) else none
            | [] => none
          else none
    else none

/-- Anchored ```` ``([^`]+)`` ```` (replacement `$1`). -/
def trySymbolRef (l : List Char) : Option (List Char × List Char) :=
  match l with
  | b1 :: b2 :: r2 =>
    if b1 = btC ∧ b2 = btC then
      let cap := r2.takeWhile (fun x => x != btC)
      match r2.dropWhile (fun x => x != btC) with
      | e1 :: e2 :: rest =>
        if cap ≠ [] ∧ e1 = btC ∧ e2 = btC then some (cap, rest) else none
      | _ => none
    else none
  | _ => none

/-- Anchored `<doc:([^>]+)>` (replacement `[$1]`). -/
def tryDocLink (l : List Char) : Option (List Char × List Char) :=
  match l with
  | c1 :: c2 :: c3 :: c4 :: c5 :: r =>
    if c1 = '<' ∧ c2 = 'd' ∧ c3 = 'o' ∧ c4 = 'c' ∧ c5 = ':' then
      let cap := r.takeWhile (fun x => x != '>')
      match r.dropWhile (fun x => x != '>') with
      | e :: rest => if cap ≠ [] ∧ e = '>' then some ('[' :: cap ++ [']'], rest) else none
      | [] => none
    else none
  | _ => none

/-- The alternation `(Row|Column|Image|Video|Links|TabNavigator|Tab)`, tried
left to right (note `TabNavigator` precedes `Tab`, and there is no word
boundary in the pattern). -/
def layoutKeywords : List (List Char) :=
  ["Row", "Column", "Image", "Video", "Links", "TabNavigator", "Tab"].map String.toList

/-- Anchored `@(Row|Column|Image|Video|Links|TabNavigator|Tab)\s*(\{[^}]*\})?`
(replacement `""`).  The optional brace group is greedy: it is consumed iff an
opening brace follows the whitespace run and a closing brace exists; otherwise
the match ends after the whitespace run (backing `\s*` off cannot expose a
`{`, since all backed-over characters are whitespace). -/
def tryLayout (l : List Char) : Option (List Char × List Char) :=
  match l with
  | [] => none
  | c :: cs =>
    if c = '@' then
      match layoutKeywords.find? (fun k => k.isPrefixOf cs) with
      | some k =>
        let r2 := (cs.drop k.length).dropWhile isWsC
        let withBody : Option (List Char) :=
          match r2 with
          | b :: r3 =>
            if b = obC then
              match r3.dropWhile (fun x => x != cbC) with
              | e :: rest => if e = cbC then some rest else none
              | [] => none
            else none
          | [] => none
        match withBody with
        | some rest => some ([], rest)
        | none => some ([], r2)
      | none => none
    else none

/-- Replacement emitted for a run of `n` consecutive newlines by
`replace(/\n{3,}/g, "\n\n")`: runs of three or more collapse to two. -/
def emitNlRun (n : Nat) : List Char :=
  if 3 ≤ n then [nlC, nlC] else List.replicate n nlC

def collapseNlAux : Nat → List Char → List Char
  | run, [] => emitNlRun run
  | run, c :: cs =>
    if c = nlC then collapseNlAux (run + 1) cs
    else emitNlRun run ++ c :: collapseNlAux 0 cs

/-- `replace(/\n{3,}/g, "\n\n")`: the greedy quantifier matches each maximal
newline run. -/
def collapseNl (l : List Char) : List Char :=
  collapseNlAux 0 l

def cleanMarkdown (content : List Char) : List Char :=
  jsTrim (collapseNl (replaceAll tryLayout (replaceAll tryDocLink
    (replaceAll trySymbolRef (replaceAll tryDirective content)))))

/-! ## The index store (src/unnamed/part_005)

`openIndex` (lines 35–101) creates

* table `docs (id INTEGER PRIMARY KEY, library, path, title, content, source, UNIQUE(library, path))`,
* an external-content FTS5 table `docs_fts(title, content, library, path, source, content='docs', content_rowid='id')`,
* triggers `docs_ai` / `docs_ad` / `docs_au` mirroring inserts / deletes /
  updates of `docs` into `docs_fts`.

The state is modelled explicitly: `docs` in rowid order, and the FTS table as
the list of index entries it currently holds (an entry records the column
values it was inserted with — that is what the FTS index tokenizes — while
*reads* of FTS columns go back to the `docs` row with `id = rowid`, returning
NULL when that row no longer exists, as external-content FTS5 does). -/

structure DocRow where
  id : Nat
  library : String
  path : String
  title : String
  content : String
  source : String
deriving Repr, DecidableEq

structure FtsEntry where
  rowid : Nat
  ftitle : String
  fcontent : String
  flibrary : String
  fpath : String
  fsource : String
deriving Repr, DecidableEq

structure DB where
  docs : List DocRow
  fts : List FtsEntry
  nextId : Nat
deriving Repr, DecidableEq

/-- A fresh store: no rows, rowids start at 1. -/
def emptyDB : DB := ⟨[], [], 1⟩

/-- `INSERT OR REPLACE INTO docs (library, path, title, content, source)
VALUES (?, ?, ?, ?, ?)` (the prepared statement of `indexLibrary`,
`indexExamples`, `indexEpisodes`), together with the trigger effects.

SQLite semantics being modelled:
* the new row gets a fresh rowid (the `id` column is not in the column list;
  rowid allocation happens before conflict resolution, so the rowid of a
  just-deleted conflicting row is not reused);
* the REPLACE conflict resolution deletes the old row with the same
  `(library, path)` key, but fires the `docs_ad` AFTER DELETE trigger **only
  when `PRAGMA recursive_triggers` is ON** — it is OFF by default and
  `openIndex` sets no pragma, so the old `docs_fts` entry is *not* removed;
* the `docs_ai` AFTER INSERT trigger adds a `docs_fts` entry for the new row
  (the `docs_au` UPDATE trigger never fires: REPLACE is delete-plus-insert). -/
def insertOrReplaceDoc (db : DB) (library path title content source : String) : DB :=
  let survivors := db.docs.filter (fun r => !(r.library == library && r.path == path))
  { docs := survivors ++ [⟨db.nextId, library, path, title, content, source⟩]
    fts := db.fts ++ [⟨db.nextId, title, content, library, path, source⟩]
    nextId := db.nextId + 1 }

/-- `SELECT ... FROM docs WHERE id = rowid` — the content-table lookup behind
every column read of the external-content FTS table. -/
def lookupRow (db : DB) (rid : Nat) : Option DocRow :=
  db.docs.find? (fun r => r.id == rid)

/-! ### FTS5 matching

The default `unicode61` tokenizer, restricted to ASCII: tokens are maximal
runs of letters and digits, case-folded (underscore and all punctuation are
separators).  A query produced by `search` is a conjunction of phrases
`"term"*`: the term is tokenized, the resulting token sequence must occur
consecutively in some column, with the last token matched as a prefix. -/

def isTokC (c : Char) : Bool := c.isAlpha || c.isDigit

def tokAux : List Char → List Char → List (List Char)
  | cur, [] => if cur.isEmpty then [] else [cur.reverse]
  | cur, c :: cs =>
    if isTokC c then tokAux (c.toLower :: cur) cs
    else if cur.isEmpty then tokAux [] cs
    else cur.reverse :: tokAux [] cs

def tokenizeL (l : List Char) : List (List Char) := tokAux [] l

def tokenize (s : String) : List (List Char) := tokenizeL s.toList

/-- Does the phrase match at the head of the token list (last phrase token as
a prefix)?  An empty phrase matches vacuously (a query whose term has no
tokens makes the real FTS5 query fail, which is routed through the explicit
failure `Outcome` instead). -/
def phraseAt : List (List Char) → List (List Char) → Bool
  | [], _ => true
  | [p], t :: _ => p.isPrefixOf t
  | _ :: _, [] => false
  | p :: ps, t :: ts => p == t && phraseAt ps ts

def phraseIn (phrase : List (List Char)) : List (List Char) → Bool
  | [] => phraseAt phrase []
  | t :: ts => phraseAt phrase (t :: ts) || phraseIn phrase ts

/-- The five indexed columns of `docs_fts`, in declaration order. -/
def entryCols (e : FtsEntry) : List String :=
  [e.ftitle, e.fcontent, e.flibrary, e.fpath, e.fsource]

/-- `docs_fts MATCH <query>`: every term's phrase occurs in some column. -/
def entryMatches (e : FtsEntry) (terms : List (List Char)) : Bool :=
  terms.all (fun t => (entryCols e).any (fun col => phraseIn (tokenizeL t) (tokenize col)))

/-! ### Query normalization (src/unnamed/part_005 lines 296–306)

```ts
const ftsQuery = query
  .replace(/['"]/g, "")      // Remove quotes
  .split(/\s+/)
  .filter(Boolean)
  .map((term) => QUOTED(term))   // "term"*   (prefix matching)
  .join(" ");
if (!ftsQuery) return [];
```
`split(/\s+/).filter(Boolean)` yields the maximal non-whitespace runs. -/

def stripQuotesAll (l : List Char) : List Char :=
  l.filter (fun c => !(c == dqC || c == sqC))

def wordsAux : List Char → List Char → List (List Char)
  | cur, [] => if cur.isEmpty then [] else [cur.reverse]
  | cur, c :: cs =>
    if isWsC c then
      (if cur.isEmpty then wordsAux [] cs else cur.reverse :: wordsAux [] cs)
    else wordsAux (c :: cur) cs

/-- The normalized term list of a query. -/
def termsOfQ (q : String) : List (List Char) :=
  wordsAux [] (stripQuotesAll q.toList)

def wrapTerm (t : List Char) : List Char := dqC :: (t ++ [dqC, '*'])

def joinSpace : List (List Char) → List Char
  | [] => []
  | t :: ts => t ++ (match ts with | [] => [] | _ :: _ => ' ' :: joinSpace ts)

/-- The `ftsQuery` string (as a character list). -/
def ftsQueryL (q : String) : List Char :=
  joinSpace ((termsOfQ q).map wrapTerm)

/-! ### `search` and `fallbackSearch` (src/unnamed/part_005 lines 288–391) -/

structure SearchOptions where
  lib : Option String := none
  limit : Option Nat := none
  source : Option String := none
deriving Repr, DecidableEq

/-- `options.limit || 10` (`0` is falsy in JS; negative limits, which the CLI
could only produce from a pathological `--limit` string, are out of the
modelled domain). -/
def effLimit (o : SearchOptions) : Nat :=
  match o.limit with
  | none => 10
  | some n => if n = 0 then 10 else n

/-- `options.source || "docs"` — default to docs only. -/
def effSource (o : SearchOptions) : String :=
  match o.source with
  | none => "docs"
  | some s => if s = "" then "docs" else s

/-- `if (options.lib)` — the library filter is added only for a truthy
(non-empty) value. -/
def effLib (o : SearchOptions) : Option String :=
  match o.lib with
  | none => none
  | some l => if l = "" then none else some l

/-- `AND library = ?` on `docs_fts`: the column read goes through the content
table; for an orphaned entry it yields NULL and the comparison is not true. -/
def whereLib (db : DB) (o : SearchOptions) (e : FtsEntry) : Bool :=
  match effLib o with
  | none => true
  | some l =>
    match lookupRow db e.rowid with
    | some r => r.library == l
    | none => false

/-- `AND source = ?`, added unless the source option is `"all"`. -/
def whereSource (db : DB) (o : SearchOptions) (e : FtsEntry) : Bool :=
  if effSource o = "all" then true
  else
    match lookupRow db e.rowid with
    | some r => r.source == effSource o
    | none => false

structure SearchResult where
  library : String
  path : String
  title : String
  snippet : String
  score : Int
  source : String
deriving Repr, DecidableEq

/-- The SELECT row built for one matched FTS entry.  `library`, `path`,
`title`, `source` are content-table reads (NULL, rendered as `""`, for an
orphaned entry); `snippet(docs_fts, 1, ...)` and `bm25(docs_fts)` are SQLite
built-ins abstracted as the opaque parameters `snip` and `score`. -/
def toPrimaryResult (db : DB) (score : FtsEntry → Int) (snip : FtsEntry → String)
    (e : FtsEntry) : SearchResult :=
  match lookupRow db e.rowid with
  | some r => ⟨r.library, r.path, r.title, snip e, score e, r.source⟩
  | none => ⟨"", "", "", snip e, score e, ""⟩

/-- The rows satisfying `docs_fts MATCH ? [AND library = ?] [AND source = ?]`. -/
def primaryCandidates (db : DB) (terms : List (List Char)) (o : SearchOptions) :
    List FtsEntry :=
  db.fts.filter (fun e => entryMatches e terms && whereLib db o e && whereSource db o e)

/-- `ORDER BY score` (bm25: lower is more relevant). -/
def scoreOrder (score : FtsEntry → Int) (a b : FtsEntry) : Prop :=
  score a ≤ score b

instance scoreOrderDec (score : FtsEntry → Int) : DecidableRel (scoreOrder score) :=
  fun a b => inferInstanceAs (Decidable (score a ≤ score b))

/-- The primary ranked query: `SELECT ... FROM docs_fts WHERE docs_fts MATCH ?
[AND library = ?] [AND source = ?] ORDER BY score LIMIT ?`. -/
def primarySearch (db : DB) (terms : List (List Char)) (o : SearchOptions)
    (score : FtsEntry → Int) (snip : FtsEntry → String) : List SearchResult :=
  (((primaryCandidates db terms o).insertionSort (scoreOrder score)).take
    (effLimit o)).map (toPrimaryResult db score snip)

/-- SQLite's default `LIKE`: `%` matches any sequence, `_` any single
character, other characters compare case-insensitively on ASCII letters
(Lean's `Char.toLower` folds exactly ASCII).  Defined with a fuel argument:
every recursive call strictly decreases `|pattern| + |text|` except the resume
after `%`, which decreases `|text|`; `|pattern| + |text| + 1` steps always
suffice. -/
def likeMatchF : Nat → List Char → List Char → Bool
  | 0, _, _ => false
  | _ + 1, [], t => t.isEmpty
  | fuel + 1, pc :: ps, t =>
    if pc = '%' then
      likeMatchF fuel ps t ||
        (match t with
         | [] => false
         | _ :: ts => likeMatchF fuel (pc :: ps) ts)
    else
      match t with
      | [] => false
      | tc :: ts => (if pc = '_' then true else pc.toLower == tc.toLower) && likeMatchF fuel ps ts

def likeMatch (p t : List Char) : Bool :=
  likeMatchF (p.length + t.length + 1) p t

/-- `column LIKE ?` with the bound pattern `%${query}%`. -/
def likeContains (text q : String) : Bool :=
  likeMatch ('%' :: q.toList ++ ['%']) text.toList

def fbLib (o : SearchOptions) (r : DocRow) : Bool :=
  match effLib o with
  | none => true
  | some l => r.library == l

def fbSource (o : SearchOptions) (r : DocRow) : Bool :=
  if effSource o = "all" then true else r.source == effSource o

/-- `substr(content, 1, 200)`: the first 200 characters. -/
def substr200 (s : String) : String := ⟨s.toList.take 200⟩

/-- The fallback SELECT: `SELECT library, path, title, substr(content,1,200)
as snippet, 0 as score, source FROM docs WHERE (title LIKE ? OR content LIKE ?)
[AND library = ?] [AND source = ?] LIMIT ?` — no ORDER BY, so rows come in
rowid (table) order. -/
def fallbackQuery (db : DB) (q : String) (o : SearchOptions) : List SearchResult :=
  ((db.docs.filter (fun r =>
      (likeContains r.title q || likeContains r.content q) && fbLib o r && fbSource o r)).take
    (effLimit o)).map
    (fun r => ⟨r.library, r.path, r.title, substr200 r.content, 0, r.source⟩)

/-- Success or failure of a prepared statement (the `try`/`catch` blocks). -/
inductive Outcome
  | ok
  | fail
deriving Repr, DecidableEq

/-- `fallbackSearch` (lines 349–391): the final `try { ... } catch { return [] }`. -/
def fallbackSearch (db : DB) (q : String) (o : SearchOptions) : Outcome → List SearchResult
  | .ok => fallbackQuery db q o
  | .fail => []

/-- `search` (lines 288–344): normalize the query, return `[]` when it
normalizes to nothing, otherwise run the primary ranked query and degrade to
`fallbackSearch` when it fails. -/
def search (db : DB) (q : String) (o : SearchOptions)
    (score : FtsEntry → Int) (snip : FtsEntry → String)
    (primary fb : Outcome) : List SearchResult :=
  if ftsQueryL q = [] then []
  else
    match primary with
    | .ok => primarySearch db (termsOfQ q) o score snip
    | .fail => fallbackSearch db q o fb

/-! ### `listDocs` (lines 396–416) and `getStats` (lines 431–446) -/

structure DocEntry where
  library : String
  path : String
  title : String
  source : String
deriving Repr, DecidableEq

/-- `ORDER BY source, library, path` under the BINARY collation: memcmp on
UTF-8 bytes, which coincides with codepoint-lexicographic order, i.e. the
lexicographic order on the character lists. -/
def rowLe (a b : DocRow) : Prop :=
  a.source.toList < b.source.toList ∨ (a.source.toList = b.source.toList ∧
    (a.library.toList < b.library.toList ∨ (a.library.toList = b.library.toList ∧
      a.path.toList ≤ b.path.toList)))

instance rowLeDec : DecidableRel rowLe := fun a b =>
  inferInstanceAs (Decidable (a.source.toList < b.source.toList ∨
    (a.source.toList = b.source.toList ∧
      (a.library.toList < b.library.toList ∨ (a.library.toList = b.library.toList ∧
        a.path.toList ≤ b.path.toList)))))

/-- `WHERE 1=1 [AND library = ?] [AND source = ?]`: the library filter is
added for a truthy `lib`, the source filter unless `source` is falsy or
`"all"`. -/
def listFilter (lib source : Option String) (r : DocRow) : Bool :=
  (match lib with
   | none => true
   | some l => if l = "" then true else r.library == l) &&
  (match source with
   | none => true
   | some s => if s = "" then true else if s = "all" then true else r.source == s)

def listDocs (db : DB) (lib source : Option String) : List DocEntry :=
  ((db.docs.filter (listFilter lib source)).insertionSort rowLe).map
    (fun r => ⟨r.library, r.path, r.title, r.source⟩)

structure IndexStats where
  totalDocs : Nat
  byLibrary : List (String × Nat)
  bySource : List (String × Nat)
deriving Repr, DecidableEq

/-- `SELECT <col>, COUNT(*) FROM docs GROUP BY <col>`. -/
def groupCount (vals : List String) : List (String × Nat) :=
  vals.dedup.map (fun v => (v, vals.count v))

/-- `getStats`: `COUNT(*)` plus the two grouped aggregations, all read from
the live `docs` table in one call. -/
def getStats (db : DB) : IndexStats :=
  ⟨db.docs.length,
   groupCount (db.docs.map (fun r => r.library)),
   groupCount (db.docs.map (fun r => r.source))⟩

/-! ## Shared concrete sample data for the witnesses -/

/-- A constant stand-in for the opaque `bm25` ranking function. -/
def scoreZero : FtsEntry → Int := fun _ => 0

/-- A constant stand-in for the opaque `snippet` function. -/
def snipNone : FtsEntry → String := fun _ => ""

/-- The store after indexing `(tca, tca/Testing)` once. -/
def dbUpsert0 : DB := insertOrReplaceDoc emptyDB "tca" "tca/Testing" "T1" "alpha stuff" "docs"

/-- The store after re-indexing the same key with changed content. -/
def dbUpsert : DB := insertOrReplaceDoc dbUpsert0 "tca" "tca/Testing" "T2" "beta stuff" "docs"

/-- A consistent store holding one documentation row and one example row. -/
def dbSample : DB :=
  insertOrReplaceDoc
    (insertOrReplaceDoc emptyDB "tca" "tca/Testing" "Testing" "shared hello docs" "docs")
    "examples" "examples/CaseStudies/A.swift" "A" "shared zebra code" "examples"

/-! ## Theorems -/

/-- Helper: the `ftsQuery` string is empty iff no terms survive
normalization. -/
theorem ftsQueryL_eq_nil_iff (q : String) : ftsQueryL q = [] ↔ termsOfQ q = [] := by
  unfold ftsQueryL
  cases h : termsOfQ q with
  | nil => simp [joinSpace]
  | cons t ts => simp [joinSpace, wrapTerm]

/-- C6: `search` first normalizes the query (quote characters stripped,
whitespace-split, empty terms dropped — that is `termsOfQ`); if no terms
remain it returns an empty result set: no error is raised and the result does
not depend on the store contents nor on the outcome of any prepared statement,
i.e. the store's query paths are not consulted. -/
theorem search_empty_normalized_query (db : DB) (q : String) (o : SearchOptions)
    (score : FtsEntry → Int) (snip : FtsEntry → String) (p f : Outcome)
    (h : termsOfQ q = []) :
    search db q o score snip p f = [] := by
  have hq : ftsQueryL q = [] := (ftsQueryL_eq_nil_iff q).mpr h
  simp [search, hq]

/-- Witness for C6: a query consisting of quote characters and whitespace
normalizes to no terms and yields an empty result even on a non-empty store. -/
theorem search_empty_normalized_query_witness :
    search dbSample (String.mk [dqC, ' ', sqC, ' ']) ⟨none, none, none⟩
      scoreZero snipNone .ok .ok = [] :=
  search_empty_normalized_query dbSample (String.mk [dqC, ' ', sqC, ' '])
    ⟨none, none, none⟩ scoreZero snipNone .ok .ok (by decide)

/-- C2: whenever the primary ranked query fails (and the query normalized to
at least one term, so that the query is attempted at all), `search` returns
exactly the result of `fallbackSearch`; a failing fallback yields `[]` (the
path never throws — `fallbackSearch` is total); the successful fallback
respects the limit, and each of its results is a substring-containment match
(`LIKE '%query%'`) on title or content of a stored row satisfying the same
library and source filters, scored with the constant `0` and carrying the
fixed-length plain snippet `substr(content, 1, 200)`. -/
theorem search_fallback_spec (db : DB) (q : String) (o : SearchOptions)
    (score : FtsEntry → Int) (snip : FtsEntry → String)
    (h : termsOfQ q ≠ []) :
    (∀ fb, search db q o score snip .fail fb = fallbackSearch db q o fb)
  ∧ fallbackSearch db q o .fail = []
  ∧ (fallbackSearch db q o .ok).length ≤ effLimit o
  ∧ (∀ r ∈ fallbackSearch db q o .ok, ∃ row, row ∈ db.docs ∧
      (likeContains row.title q || likeContains row.content q) = true ∧
      fbLib o row = true ∧ fbSource o row = true ∧
      r = ⟨row.library, row.path, row.title, substr200 row.content, 0, row.source⟩) := by
  have hq : ¬ ftsQueryL q = [] := fun hqq => h ((ftsQueryL_eq_nil_iff q).mp hqq)
  refine ⟨?_, rfl, ?_, ?_⟩
  · intro fb; simp [search, hq]
  · simp [fallbackSearch, fallbackQuery, List.length_take_le]
  · intro r hr
    simp only [fallbackSearch, fallbackQuery] at hr
    obtain ⟨row, hrow, rfl⟩ := List.mem_map.mp hr
    have h1 := List.mem_filter.mp (List.mem_of_mem_take hrow)
    have h2 := h1.2
    simp only [Bool.and_eq_true] at h2
    exact ⟨row, h1.1, h2.1.1, h2.1.2, h2.2, rfl⟩

/-- Witness for C2 on a concrete store and query. -/
theorem search_fallback_witness :
    search dbSample "zebra" ⟨none, none, some "all"⟩ scoreZero snipNone .fail .ok
      = fallbackSearch dbSample "zebra" ⟨none, none, some "all"⟩ .ok
  ∧ fallbackSearch dbSample "zebra" ⟨none, none, some "all"⟩ .fail = [] :=
  ⟨(search_fallback_spec dbSample "zebra" ⟨none, none, some "all"⟩
      scoreZero snipNone (by decide)).1 .ok,
   (search_fallback_spec dbSample "zebra" ⟨none, none, some "all"⟩
      scoreZero snipNone (by decide)).2.1⟩

/-- C1 (code bug): re-indexing the key `(tca, tca/Testing)` with changed
content does replace title/content/sourceType in place and leaves exactly one
`docs` row for the key — but the shadow index keeps a second, orphaned
`docs_fts` entry for the key (its rowid no longer exists in `docs`), because
SQLite fires delete triggers during `INSERT OR REPLACE` conflict resolution
only when `recursive_triggers` is enabled, and `openIndex` never enables it.
A search for the old content (here the term `alpha`, present only in the
overwritten body) with source filter `all` still surfaces a hit: the orphaned
entry matches and is returned as a row of NULL columns.  This violates both
the no-orphan invariant and "the old content is no longer discoverable". -/
theorem upsert_orphaned_shadow_entry :
    (dbUpsert.docs.filter (fun r => r.library == "tca" && r.path == "tca/Testing")).map
        (fun r => (r.title, r.content, r.source)) = [("T2", "beta stuff", "docs")]
  ∧ dbUpsert.docs.length = 1
  ∧ (dbUpsert.fts.filter (fun e => e.flibrary == "tca" && e.fpath == "tca/Testing")).length = 2
  ∧ (dbUpsert.fts.filter (fun e => (lookupRow dbUpsert e.rowid).isNone)).length = 1
  ∧ search dbUpsert "alpha" ⟨none, none, some "all"⟩ scoreZero snipNone .ok .ok
      = [⟨"", "", "", "", 0, ""⟩] := by
  decide

/-- C10: the total document count equals the sum of the per-library counts
and the sum of the per-source counts, since all three aggregates of
`getStats` are grouped aggregations over the same live `docs` table. -/
theorem getStats_totals_consistent (db : DB) :
    (((getStats db).byLibrary.map Prod.snd).sum = (getStats db).totalDocs)
  ∧ (((getStats db).bySource.map Prod.snd).sum = (getStats db).totalDocs) := by
  constructor <;>
  · simp only [getStats, groupCount, List.map_map, Function.comp_def]
    rw [List.sum_map_count_dedup_eq_length]
    simp

/-- Helper: the separator does not occur inside any piece of `splitOn`. -/
theorem not_mem_splitOn {α : Type _} [DecidableEq α] (x : α) :
    ∀ (l : List α), ∀ p ∈ l.splitOn x, x ∉ p := by
  intro l
  induction l with
  | nil =>
    intro p hp
    simp only [List.splitOn_nil, List.mem_singleton] at hp
    subst hp; simp
  | cons a t ih =>
    intro p hp
    simp only [List.splitOn] at hp ih
    rw [List.splitOnP_cons] at hp
    by_cases h : (a == x) = true
    · rw [if_pos h] at hp
      rcases List.mem_cons.mp hp with h1 | h1
      · subst h1; simp
      · exact ih p h1
    · rw [if_neg h] at hp
      cases h' : t.splitOnP (· == x) with
      | nil => exact absurd h' (List.splitOnP_ne_nil _ t)
      | cons hd tl =>
        rw [h', List.modifyHead_cons] at hp
        rcases List.mem_cons.mp hp with h1 | h1
        · subst h1
          intro hmem
          rcases List.mem_cons.mp hmem with h2 | h2
          · exact h (by simp [h2])
          · exact ih hd (h' ▸ List.mem_cons_self hd tl) h2
        · exact ih p (h' ▸ List.mem_cons_of_mem hd h1)

/-- C4: `truncateContent` splits on line boundaries (`splitOn nlC`).  If the
line count is at most the limit the content is returned unchanged with
`truncated = false` and the total line count; otherwise exactly the first
`maxLines` lines are returned joined back with newlines, `truncated = true`,
and the true total line count — in particular (for a positive limit) the
returned content has exactly `maxLines` lines. -/
theorem truncateContent_spec (content : List Char) (maxLines : Nat) :
    ((content.splitOn nlC).length ≤ maxLines →
      truncateContent content maxLines = ⟨content, false, (content.splitOn nlC).length⟩)
  ∧ (maxLines < (content.splitOn nlC).length →
      truncateContent content maxLines =
        ⟨[nlC].intercalate ((content.splitOn nlC).take maxLines), true,
          (content.splitOn nlC).length⟩)
  ∧ (maxLines < (content.splitOn nlC).length → 1 ≤ maxLines →
      ((truncateContent content maxLines).content.splitOn nlC).length = maxLines) := by
  refine ⟨?_, ?_, ?_⟩
  · intro h; simp [truncateContent, h]
  · intro h; simp [truncateContent, Nat.not_le.mpr h]
  · intro h hm
    have h2 : truncateContent content maxLines =
        ⟨[nlC].intercalate ((content.splitOn nlC).take maxLines), true,
          (content.splitOn nlC).length⟩ := by
      simp [truncateContent, Nat.not_le.mpr h]
    rw [h2]
    have hx : ∀ l ∈ (content.splitOn nlC).take maxLines, nlC ∉ l := fun l hl =>
      not_mem_splitOn nlC content l (List.mem_of_mem_take hl)
    have hne : (content.splitOn nlC).take maxLines ≠ [] := by
      intro hnil
      have := congrArg List.length hnil
      simp only [List.length_take, List.length_nil] at this
      omega
    show (([nlC].intercalate ((content.splitOn nlC).take maxLines)).splitOn nlC).length
        = maxLines
    rw [List.splitOn_intercalate _ nlC hx hne]
    simp only [List.length_take]
    omega

/-- A 120-line document and a 30-line document. -/
def doc120 : List Char := [nlC].intercalate (List.replicate 120 ['x'])

def doc30 : List Char := [nlC].intercalate (List.replicate 30 ['x'])

/-- Witness for C4: the 120-line/limit-50 and 30-line/limit-50 round trips. -/
theorem truncateContent_witness :
    (truncateContent doc120 50).truncated = true
  ∧ (truncateContent doc120 50).totalLines = 120
  ∧ ((truncateContent doc120 50).content.splitOn nlC).length = 50
  ∧ truncateContent doc30 50 = ⟨doc30, false, 30⟩ := by
  refine ⟨?_, ?_, (truncateContent_spec doc120 50).2.2 (by decide) (by decide), ?_⟩
  · rw [(truncateContent_spec doc120 50).2.1 (by decide)]
  · rw [(truncateContent_spec doc120 50).2.1 (by decide)]; decide
  · rw [(truncateContent_spec doc30 50).1 (by decide)]; decide

theorem rowLe_total : ∀ a b : DocRow, rowLe a b ∨ rowLe b a := by
  intro a b
  rcases lt_trichotomy a.source.toList b.source.toList with h | h | h
  · exact Or.inl (Or.inl h)
  · rcases lt_trichotomy a.library.toList b.library.toList with h2 | h2 | h2
    · exact Or.inl (Or.inr ⟨h, Or.inl h2⟩)
    · rcases le_total a.path.toList b.path.toList with h3 | h3
      · exact Or.inl (Or.inr ⟨h, Or.inr ⟨h2, h3⟩⟩)
      · exact Or.inr (Or.inr ⟨h.symm, Or.inr ⟨h2.symm, h3⟩⟩)
    · exact Or.inr (Or.inr ⟨h.symm, Or.inl h2⟩)
  · exact Or.inr (Or.inl h)

theorem rowLe_trans : ∀ a b c : DocRow, rowLe a b → rowLe b c → rowLe a c := by
  intro a b c hab hbc
  rcases hab with h1 | ⟨e1, h1⟩ <;> rcases hbc with h2 | ⟨e2, h2⟩
  · exact Or.inl (lt_trans h1 h2)
  · exact Or.inl (lt_of_lt_of_eq h1 e2)
  · exact Or.inl (lt_of_eq_of_lt e1 h2)
  · refine Or.inr ⟨e1.trans e2, ?_⟩
    rcases h1 with g1 | ⟨f1, g1⟩ <;> rcases h2 with g2 | ⟨f2, g2⟩
    · exact Or.inl (lt_trans g1 g2)
    · exact Or.inl (lt_of_lt_of_eq g1 f2)
    · exact Or.inl (lt_of_eq_of_lt f1 g2)
    · exact Or.inr ⟨f1.trans f2, le_trans g1 g2⟩

instance : IsTotal DocRow rowLe := ⟨rowLe_total⟩

instance : IsTrans DocRow rowLe := ⟨rowLe_trans⟩

/-- The `(sourceType, library, logicalPath)` order on returned entries. -/
def entryLe (a b : DocEntry) : Prop :=
  a.source.toList < b.source.toList ∨ (a.source.toList = b.source.toList ∧
    (a.library.toList < b.library.toList ∨ (a.library.toList = b.library.toList ∧
      a.path.toList ≤ b.path.toList)))

/-- C9: `listDocs` returns exactly the `(library, path, title, source)`
projections of the rows passing the library/source filters (the `DocEntry`
result type carries no content column, so the body is never returned), in
`(source, library, path)` order; an absent source filter and the sentinel
`"all"` produce the same, source-unfiltered result. -/
theorem listDocs_spec (db : DB) (lib source : Option String) :
    (∀ e, e ∈ listDocs db lib source ↔ ∃ r, r ∈ db.docs ∧ listFilter lib source r = true ∧
        e = ⟨r.library, r.path, r.title, r.source⟩)
  ∧ (listDocs db lib source).Pairwise entryLe
  ∧ listDocs db lib none = listDocs db lib (some "all") := by
  refine ⟨?_, ?_, ?_⟩
  · intro e
    simp only [listDocs, List.mem_map, List.mem_insertionSort, List.mem_filter]
    constructor
    · rintro ⟨r, ⟨hr, hf⟩, rfl⟩; exact ⟨r, hr, hf, rfl⟩
    · rintro ⟨r, hr, hf, rfl⟩; exact ⟨r, ⟨hr, hf⟩, rfl⟩
  · have hs : ((db.docs.filter (listFilter lib source)).insertionSort rowLe).Pairwise rowLe :=
      List.sorted_insertionSort rowLe _
    exact List.pairwise_map.mpr hs
  · have hf : db.docs.filter (listFilter lib none)
        = db.docs.filter (listFilter lib (some "all")) := by
      apply List.filter_congr
      intro r _
      simp [listFilter]
    unfold listDocs
    rw [hf]

/-- Witness for C9 at a concrete store. -/
theorem listDocs_witness :
    listDocs dbSample none none = listDocs dbSample none (some "all")
  ∧ ([⟨"tca", "tca/Testing", "Testing", "docs"⟩,
      ⟨"examples", "examples/CaseStudies/A.swift", "A", "examples"⟩] : List DocEntry)
      = listDocs dbSample none none := by
  refine ⟨(listDocs_spec dbSample none none).2.2, ?_⟩
  decide

/-- C3: with no explicit source option `search` filters on `source = "docs"`,
so every result is a documentation row — and if no FTS entry matching the
query belongs to a live row with source `"docs"` (e.g. the term occurs only in
example/episode files), the result set is empty; with the sentinel `"all"` the
source condition disappears from the WHERE clause, so candidacy depends only
on the match and the library filter, whatever the document's source type. -/
theorem search_default_scope (db : DB) (q : String) (lib : Option String)
    (lim : Option Nat) (score : FtsEntry → Int) (snip : FtsEntry → String) :
    (∀ r ∈ search db q ⟨lib, lim, none⟩ score snip .ok .ok, r.source = "docs")
  ∧ ((∀ e ∈ db.fts, entryMatches e (termsOfQ q) = true →
        (lookupRow db e.rowid).map (fun row => row.source) ≠ some "docs") →
      search db q ⟨lib, lim, none⟩ score snip .ok .ok = [])
  ∧ (primaryCandidates db (termsOfQ q) ⟨lib, lim, some "all"⟩ =
      db.fts.filter (fun e =>
        entryMatches e (termsOfQ q) && whereLib db ⟨lib, lim, some "all"⟩ e)) := by
  refine ⟨?_, ?_, ?_⟩
  · intro r hr
    unfold search at hr
    by_cases hq : ftsQueryL q = []
    · rw [if_pos hq] at hr; simp at hr
    · rw [if_neg hq] at hr
      simp only [primarySearch, List.mem_map] at hr
      obtain ⟨e, he, rfl⟩ := hr
      have hmem : e ∈ primaryCandidates db (termsOfQ q) ⟨lib, lim, none⟩ :=
        (List.mem_insertionSort _).mp (List.mem_of_mem_take he)
      have hpred := (List.mem_filter.mp hmem).2
      simp only [Bool.and_eq_true] at hpred
      have hw : whereSource db ⟨lib, lim, none⟩ e = true := hpred.2
      cases hlook : lookupRow db e.rowid with
      | none => simp [whereSource, effSource, hlook] at hw
      | some row =>
        simp [whereSource, effSource, hlook] at hw
        simp [toPrimaryResult, hlook, hw]
  · intro hnone
    unfold search
    by_cases hq : ftsQueryL q = []
    · rw [if_pos hq]
    · rw [if_neg hq]
      have hcand : primaryCandidates db (termsOfQ q) ⟨lib, lim, none⟩ = [] := by
        apply List.filter_eq_nil_iff.mpr
        intro e he hpred
        simp only [Bool.and_eq_true] at hpred
        obtain ⟨⟨hm, _⟩, hw⟩ := hpred
        have hne := hnone e he hm
        cases hlook : lookupRow db e.rowid with
        | none => simp [whereSource, effSource, hlook] at hw
        | some row =>
          simp [whereSource, effSource, hlook] at hw
          exact hne (by simp [hlook, hw])
      simp [primarySearch, hcand]
  · unfold primaryCandidates
    apply List.filter_congr
    intro e _
    have hws : whereSource db ⟨lib, lim, some "all"⟩ e = true := by
      simp [whereSource, effSource]
    simp [hws]

/-- Witness for C3: `zebra` occurs only in the example row of `dbSample`, so
the default scope yields no results, while with source `all` the same term
has a match candidate. -/
theorem search_default_scope_witness :
    search dbSample "zebra" ⟨none, none, none⟩ scoreZero snipNone .ok .ok = []
  ∧ (primaryCandidates dbSample (termsOfQ "zebra") ⟨none, none, some "all"⟩).length = 1 := by
  refine ⟨(search_default_scope dbSample "zebra" none none scoreZero snipNone).2.1
    (by decide), ?_⟩
  rw [(search_default_scope dbSample "zebra" none none scoreZero snipNone).2.2]
  decide

theorem takeWhile_append_all {α : Type _} (p : α → Bool) :
    ∀ (ds rest : List α), (∀ a ∈ ds, p a = true) →
      (ds ++ rest).takeWhile p = ds ++ rest.takeWhile p := by
  intro ds
  induction ds with
  | nil => intro rest _; simp
  | cons a t ih =>
    intro rest h
    have ha : p a = true := h a (List.mem_cons_self a t)
    simp only [List.cons_append, List.takeWhile_cons, ha, if_pos]
    rw [ih rest (fun x hx => h x (List.mem_cons_of_mem a hx))]

theorem dropWhile_append_all {α : Type _} (p : α → Bool) :
    ∀ (ds rest : List α), (∀ a ∈ ds, p a = true) →
      (ds ++ rest).dropWhile p = rest.dropWhile p := by
  intro ds
  induction ds with
  | nil => intro rest _; simp
  | cons a t ih =>
    intro rest h
    have ha : p a = true := h a (List.mem_cons_self a t)
    simp only [List.cons_append, List.dropWhile_cons, ha, if_pos]
    exact ih rest (fun x hx => h x (List.mem_cons_of_mem a hx))

/-- C8: for a directory name `<digits>-<rest>` (digits nonempty, rest
nonempty and newline-free, as `(.+)$` demands), the formatted episode title is
`Ep`, the digit value rendered without leading zeros (`parseInt` +
re-rendering), `: `, and the dash-split words of `rest` each capitalized and
joined by spaces. -/
theorem formatEpisodeName_spec (ds rest : List Char)
    (h1 : ds ≠ []) (h2 : ∀ c ∈ ds, isDigitC c = true)
    (h3 : rest ≠ []) (h4 : ∀ c ∈ rest, c ≠ nlC) :
    formatEpisodeName (ds ++ '-' :: rest) =
      'E' :: 'p' :: (Nat.repr (parseDigits ds)).toList ++
        ':' :: ' ' :: [' '].intercalate ((rest.splitOn '-').map capitalizeWord) := by
  have hdash : isDigitC '-' = false := by decide
  have ht : (ds ++ '-' :: rest).takeWhile isDigitC = ds := by
    rw [takeWhile_append_all isDigitC ds ('-' :: rest) h2]
    simp [List.takeWhile_cons, hdash]
  have hd : (ds ++ '-' :: rest).dropWhile isDigitC = '-' :: rest := by
    rw [dropWhile_append_all isDigitC ds ('-' :: rest) h2]
    simp [List.dropWhile_cons, hdash]
  have hall : rest.all (fun x => x != nlC) = true := by
    rw [List.all_eq_true]
    intro x hx
    simpa using h4 x hx
  simp only [formatEpisodeName, epMatch, ht, hd]
  rw [if_pos ⟨h1, trivial, h3, hall⟩]

/-- Witness for C8: `0156-testable-state` formats as `Ep156: Testable State`
(the leading zeros of `0156` are dropped). -/
theorem formatEpisodeName_witness :
    formatEpisodeName ("0156".toList ++ '-' :: "testable-state".toList)
      = "Ep156: Testable State".toList := by
  rw [formatEpisodeName_spec "0156".toList "testable-state".toList (by decide) (by decide)
    (by decide) (by decide)]
  decide

/-- C5: `extractTitle` tries, in priority order, (1) the DocC symbol heading
(level-1 heading whose text is in double-backtick markup — captures the symbol
name), (2) any standard level-1 heading (captures and trims its text), (3) a
leading front-matter block's `title:` capture (trimmed, one surrounding pair
of quote characters stripped); when none matches it returns no title, and the
indexing caller falls back to the filename with its `.md` extension
stripped. -/
theorem extractTitle_spec (c : List Char) :
    (∀ s, doccTitleMatch c = some s → extractTitle c = some s)
  ∧ (doccTitleMatch c = none → ∀ t, h1Match c = some t →
      extractTitle c = some (jsTrim t))
  ∧ (doccTitleMatch c = none → h1Match c = none → ∀ y, yamlTitleMatch c = some y →
      extractTitle c = some (stripQuoteChars (jsTrim y)))
  ∧ (doccTitleMatch c = none → h1Match c = none → yamlTitleMatch c = none →
      extractTitle c = none ∧ ∀ file, titleFor c file = basenameNoMd file) := by
  refine ⟨?_, ?_, ?_, ?_⟩
  · intro s hs; simp [extractTitle, hs]
  · intro h0 t ht; simp [extractTitle, h0, ht]
  · intro h0 hone y hy; simp [extractTitle, h0, hone, hy]
  · intro h0 hone h2
    have he : extractTitle c = none := by simp [extractTitle, h0, hone, h2]
    exact ⟨he, fun file => by simp [titleFor, he]⟩

/-- A text with both a front-matter title and a level-1 heading. -/
def contentBoth : List Char := ("---\ntitle: Foo\n---\n# Bar\nbody").toList

/-- A text with only a front-matter title (quoted). -/
def contentFmOnly : List Char := ("---\ntitle: \"My Title\"\n---\nBody text\n").toList

/-- A text with no matching title pattern. -/
def contentNeither : List Char := ("Just text\nno heading\n").toList

/-- A front-matter title followed by a `#` line whose tail is all whitespace
ending in a newline: the multiline `$` still gives the h1 regex a match (the
capture trims to the empty string), so the h1 branch shadows the front-matter
title and the indexing caller falls back to the filename. -/
def contentHashWs : List Char := ("---\ntitle: Foo\n---\n#  \n").toList

/-- Witness for C5: the heading wins over the front matter; a lone front
matter is used (quotes stripped); with neither, the filename (extension
stripped) is used; and on a whitespace-only heading the h1 branch still
matches (empty capture after trimming), shadowing the front matter and
sending the caller to the filename fallback. -/
theorem extractTitle_witness :
    extractTitle contentBoth = some ("Bar".toList)
  ∧ extractTitle contentFmOnly = some ("My Title".toList)
  ∧ titleFor contentNeither ("Articles/Testing.md".toList) = ("Testing".toList)
  ∧ extractTitle contentHashWs = some []
  ∧ titleFor contentHashWs ("Articles/Guide.md".toList) = ("Guide".toList) := by
  refine ⟨?_, ?_, ?_, ?_, by decide⟩
  · rw [(extractTitle_spec contentBoth).2.1 (by decide) ("Bar".toList) (by decide)]
    decide
  · rw [(extractTitle_spec contentFmOnly).2.2.1 (by decide) (by decide)
      (dqC :: ("My Title".toList ++ [dqC])) (by decide)]
    decide
  · rw [((extractTitle_spec contentNeither).2.2.2 (by decide) (by decide) (by decide)).2
      ("Articles/Testing.md".toList)]
    decide
  · rw [(extractTitle_spec contentHashWs).2.1 (by decide) [' '] (by decide)]
    decide

/-! ### C7 helpers: blank-line collapse and trimming invariants -/

def tripleNl : List Char := [nlC, nlC, nlC]

/-- Helper: `containsSeq` is the infix test. -/
theorem containsSeq_eq_true_iff (n : List Char) :
    ∀ (l : List Char), containsSeq n l = true ↔ n <:+: l := by
  intro l
  induction l with
  | nil =>
    simp only [containsSeq, List.isEmpty_iff]
    constructor
    · intro h; simp [h]
    · intro h; simpa using List.eq_nil_of_infix_nil h
  | cons c cs ih =>
    simp only [containsSeq, Bool.or_eq_true, List.isPrefixOf_iff_prefix, ih,
      List.infix_cons_iff]

/-- Helper: the head of a `dropWhile` result does not satisfy the predicate. -/
theorem dropWhile_head_not {α : Type _} (p : α → Bool) :
    ∀ (l : List α) (c : α), (l.dropWhile p).head? = some c → p c = false := by
  intro l
  induction l with
  | nil => intro c h; simp at h
  | cons a t ih =>
    intro c h
    rw [List.dropWhile_cons] at h
    by_cases ha : p a = true
    · rw [if_pos ha] at h; exact ih c h
    · rw [if_neg ha] at h
      simp only [List.head?_cons, Option.some.injEq] at h
      subst h
      simpa using ha

/-- Helper: a nonempty `dropWhile` result keeps the last element. -/
theorem dropWhile_getLast? {α : Type _} (p : α → Bool) :
    ∀ (l : List α), l.dropWhile p ≠ [] → (l.dropWhile p).getLast? = l.getLast? := by
  intro l
  induction l with
  | nil => intro h; simp at h
  | cons a t ih =>
    intro h
    rw [List.dropWhile_cons] at h ⊢
    by_cases ha : p a = true
    · rw [if_pos ha] at h ⊢
      rw [ih h]
      cases t with
      | nil => exact absurd (by simp) h
      | cons b u => exact (List.getLast?_cons_cons).symm
    · rw [if_neg ha]

/-- Absence of leading/trailing whitespace, as a boolean. -/
def leadTrailTrimmed (l : List Char) : Bool :=
  (match l.head? with | none => true | some c => !isWsC c) &&
  (match l.getLast? with | none => true | some c => !isWsC c)

theorem jsTrim_trimmed (l : List Char) : leadTrailTrimmed (jsTrim l) = true := by
  unfold leadTrailTrimmed jsTrim
  rw [Bool.and_eq_true]
  constructor
  · rw [List.head?_reverse]
    by_cases hk : ((l.dropWhile isWsC).reverse.dropWhile isWsC) = []
    · rw [hk]; rfl
    · rw [dropWhile_getLast? isWsC _ hk, List.getLast?_reverse]
      cases hh : (l.dropWhile isWsC).head? with
      | none => rfl
      | some c => simp [dropWhile_head_not isWsC l c hh]
  · rw [List.getLast?_reverse]
    cases hh : ((l.dropWhile isWsC).reverse.dropWhile isWsC).head? with
    | none => rfl
    | some c => simp [dropWhile_head_not isWsC _ c hh]

theorem jsTrim_contiguous (l : List Char) : jsTrim l <:+: l := by
  unfold jsTrim
  have h1 : (l.dropWhile isWsC) <:+ l := List.dropWhile_suffix isWsC
  have h2 : ((l.dropWhile isWsC).reverse.dropWhile isWsC) <:+ (l.dropWhile isWsC).reverse :=
    List.dropWhile_suffix isWsC
  have h3 := (List.IsSuffix.reverse h2)
  rw [List.reverse_reverse] at h3
  exact h3.isInfix.trans h1.isInfix

/-- Helper: prepending at most two newlines and one non-newline character
cannot create a triple-newline occurrence. -/
theorem containsSeq_emitNlRun (run : Nat) (c : Char) (xs : List Char) (hc : c ≠ nlC) :
    containsSeq tripleNl (emitNlRun run ++ c :: xs) = containsSeq tripleNl xs := by
  have hb : (nlC == c) = false := beq_eq_false_iff_ne.mpr (Ne.symm hc)
  unfold emitNlRun
  by_cases h3 : 3 ≤ run
  · rw [if_pos h3]
    simp [containsSeq, tripleNl, List.isPrefixOf, hb]
  · rw [if_neg h3]
    have h2 : run ≤ 2 := by omega
    interval_cases run <;> simp [containsSeq, tripleNl, List.isPrefixOf, hb]

/-- Helper: the output of the blank-line collapse never contains three
consecutive newlines. -/
theorem collapseNlAux_no_triple :
    ∀ (l : List Char) (run : Nat), containsSeq tripleNl (collapseNlAux run l) = false := by
  intro l
  induction l with
  | nil =>
    intro run
    show containsSeq tripleNl (emitNlRun run) = false
    unfold emitNlRun
    by_cases h3 : 3 ≤ run
    · rw [if_pos h3]; decide
    · rw [if_neg h3]
      have h2 : run ≤ 2 := by omega
      interval_cases run <;> decide
  | cons c cs ih =>
    intro run
    show containsSeq tripleNl
      (if c = nlC then collapseNlAux (run + 1) cs
       else emitNlRun run ++ c :: collapseNlAux 0 cs) = false
    by_cases hc : c = nlC
    · rw [if_pos hc]; exact ih (run + 1)
    · rw [if_neg hc]
      rw [containsSeq_emitNlRun run c (collapseNlAux 0 cs) hc]
      exact ih 0

/-- The spec's directive sample: a metadata directive with a brace body. -/
def directiveSample : List Char :=
  ("Intro\n\n@Metadata \x7b\n  x\n\x7d\n\nBody").toList

/-- The spec's blank-line sample: 4 consecutive blank lines. -/
def blanksSample : List Char := ("a\n\n\n\n\nb").toList

/-- C7: `cleanMarkdown` output never contains three consecutive newlines
(so 4 consecutive blank lines collapse to exactly one, as the concrete sample
shows) and carries no leading or trailing whitespace; and cleaning a text
containing an author directive (marker name + brace-enclosed body) removes
the entire directive. -/
theorem cleanMarkdown_spec :
    (∀ s, containsSeq tripleNl (cleanMarkdown s) = false)
  ∧ (∀ s, leadTrailTrimmed (cleanMarkdown s) = true)
  ∧ cleanMarkdown directiveSample = ("Intro\n\nBody").toList
  ∧ cleanMarkdown blanksSample = ("a\n\nb").toList := by
  refine ⟨?_, ?_, by decide, by decide⟩
  · intro s
    unfold cleanMarkdown
    set z := replaceAll tryLayout (replaceAll tryDocLink
      (replaceAll trySymbolRef (replaceAll tryDirective s))) with hz
    have h1 : containsSeq tripleNl (collapseNl z) = false := collapseNlAux_no_triple z 0
    cases hcs : containsSeq tripleNl (jsTrim (collapseNl z)) with
    | false => rfl
    | true =>
      have hinf : tripleNl <:+: collapseNl z :=
        ((containsSeq_eq_true_iff tripleNl _).mp hcs).trans (jsTrim_contiguous _)
      rw [(containsSeq_eq_true_iff tripleNl _).mpr hinf] at h1
      exact absurd h1 (by decide)
  · intro s
    unfold cleanMarkdown
    exact jsTrim_trimmed _

end PfDocs
